import Mathlib

/-!
Shallow embedding of `src/Ensemble/fingerprints.py` (RedPred repository).

The file defines four encoders, `get_ecfp`, `get_ecfc`, `get_maccs` and
`get_secfp`, each iterating over a list of SMILES strings, parsing each via
RDKit (`Chem.MolFromSmiles`), appending a placeholder row of `None`s on parse
failure, otherwise adding hydrogens and computing a fingerprint vector.  The
rows are assembled into a pandas `DataFrame` indexed by the input strings;
when any string failed to parse a diagnostic is printed and `dropna(how=any)`
removes every row containing a null before the table is returned.

The external chemistry calls (RDKit and the mhfp `MHFPEncoder`) are modelled
as an abstract engine, a structure of functions over an opaque molecule type:
the Python code treats them as black boxes, and all claims are proved for
every engine satisfying the interface contract (`ChemEngine.WF`) stated in
the specification.  Cell values of the assembled table are modelled by an
inductive type distinguishing nulls, integers and characters, because
`list(bv.ToBitString())` in Python produces one-character strings while
`list(GetHashedMorganFingerprint(...))` produces integers.

`pd.DataFrame(data=rows, index=keys)` pads ragged rows with NaN up to the
longest row; `mkDataFrame` reproduces that, and `dropna` drops every row
containing a null cell, matching `dropna(how=any)`.
-/

namespace RedPred

/-- A cell of the assembled table: a null (Python `None` / pandas NaN), an
integer, or a one-character string (an element of `list(someString)`). -/
inductive Cell where
  | null : Cell
  | int : Int → Cell
  | char : Char → Cell
deriving DecidableEq

/-- `true` on the null cell only (what `dropna` looks for). -/
def Cell.isNull : Cell → Bool
  | Cell.null => true
  | _ => false

/-- Abstract chemistry engine: the RDKit and mhfp calls made by
`fingerprints.py`, over an opaque molecule type `Mol`.
`secfp_from_mol p m len r` models `MHFPEncoder(n_permutations=p)`
followed by `.secfp_from_mol(in_mol=m, length=len, radius=r)`. -/
structure ChemEngine (Mol : Type) where
  molFromSmiles : String → Option Mol
  addHs : Mol → Mol
  getHashedMorganFingerprint : Mol → Nat → Nat → List Int
  getMorganBitString : Mol → Nat → Nat → List Char
  getMACCSKeysFingerprint : Mol → List Int
  secfp_from_mol : Nat → Mol → Nat → Nat → List Int

/-- The interface contract of the external libraries, as documented in the
specification: `circular_fingerprint(mol, radius, width, as_counts)` returns a
width-length vector of non-negative counts, the bit-string rendering of a
Morgan bit vector has one character `0`/`1` per bit, `maccs_keys` returns 167
values, and `secfp_from_mol` returns a vector of exactly its `length`
argument. -/
structure ChemEngine.WF {Mol : Type} (e : ChemEngine Mol) : Prop where
  hashedMorgan_length : ∀ m r n, (e.getHashedMorganFingerprint m r n).length = n
  hashedMorgan_nonneg : ∀ m r n, ∀ x ∈ e.getHashedMorganFingerprint m r n, 0 ≤ x
  bitString_length : ∀ m r n, (e.getMorganBitString m r n).length = n
  bitString_bits : ∀ m r n, ∀ c ∈ e.getMorganBitString m r n, c = '0' ∨ c = '1'
  maccs_length : ∀ m, (e.getMACCSKeysFingerprint m).length = 167
  secfp_length : ∀ p m len r, (e.secfp_from_mol p m len r).length = len

/-- The table returned by an encoder: the rows of the pandas `DataFrame`, in
order, each carrying its index key (the original input string). -/
structure DataFrame where
  rows : List (String × List Cell)
deriving DecidableEq

/-- Length of the longest row: the column count pandas gives a ragged
`data` list. -/
def maxRowLen (data : List (List Cell)) : Nat :=
  data.foldr (fun r m => max r.length m) 0

/-- Pad one row with nulls (NaN) up to the table's column count, as
`pd.DataFrame` does to ragged input rows. -/
def padRow (n : Nat) (r : List Cell) : List Cell :=
  r ++ List.replicate (n - r.length) Cell.null

/-- `true` when the row contains at least one null cell. -/
def rowHasNull (r : List Cell) : Bool :=
  r.any Cell.isNull

/-- `pd.DataFrame(data=data, index=index)`: rows padded to the longest row,
keyed by the index entries in order. -/
def mkDataFrame (index : List String) (data : List (List Cell)) : DataFrame :=
  { rows := index.zip (data.map (padRow (maxRowLen data))) }

/-- `df.dropna(how=any)`: keep exactly the rows with no null cell. -/
def dropna (df : DataFrame) : DataFrame :=
  { rows := df.rows.filter (fun kr => !rowHasNull kr.2) }

/-- What one encoder call returns: the table, and the diagnostic message if
one was printed (`Option.none` when nothing was printed). -/
structure EncoderResult where
  table : DataFrame
  printed : Option String
deriving DecidableEq

/-- The diagnostic printed when `erroneous_smiles` is non-empty, with the
offending strings joined by newlines. -/
def diagnosticMessage (erroneous : List String) : String :=
  "The following erroneous SMILES have been found in the data:\n" ++
    String.intercalate "\n" erroneous ++
    ".\nThe erroneous SMILES will be removed from the data."

/-- One iteration of the `get_ecfp` / `get_ecfc` loop body: parse failure
appends `[None]*nBits`; success adds hydrogens and appends either
`list(GetHashedMorganFingerprint(mol, radius, nBits))` (integers) or
`list(GetMorganFingerprintAsBitVect(mol, radius, nBits).ToBitString())`
(characters). -/
def ecfpRow {Mol : Type} (e : ChemEngine Mol) (radius nBits : Nat)
    (useCounts : Bool) (smiles : String) : List Cell :=
  match e.molFromSmiles smiles with
  | Option.none => List.replicate nBits Cell.null
  | Option.some mol =>
      let mol := e.addHs mol
      if useCounts then
        (e.getHashedMorganFingerprint mol radius nBits).map Cell.int
      else
        (e.getMorganBitString mol radius nBits).map Cell.char

/-- One iteration of the `get_maccs` loop body: `[None]*167` on failure,
`list(GetMACCSKeysFingerprint(AddHs(mol)))` on success. -/
def maccsRow {Mol : Type} (e : ChemEngine Mol) (smiles : String) : List Cell :=
  match e.molFromSmiles smiles with
  | Option.none => List.replicate 167 Cell.null
  | Option.some mol =>
      (e.getMACCSKeysFingerprint (e.addHs mol)).map Cell.int

/-- One iteration of the `get_secfp` loop body: `[None]*nBits` on failure,
`list(mhfp_encoder.secfp_from_mol(in_mol=mol, length=2048, radius=radius))`
on success, where `mhfp_encoder = MHFPEncoder(n_permutations=nPermutations)`.
The `2048` is the hard-coded `length` constant of the source. -/
def secfpRow {Mol : Type} (e : ChemEngine Mol) (nPermutations radius : Nat)
    (nBits : Nat) (smiles : String) : List Cell :=
  match e.molFromSmiles smiles with
  | Option.none => List.replicate nBits Cell.null
  | Option.some mol =>
      (e.secfp_from_mol nPermutations (e.addHs mol) 2048 radius).map Cell.int

/-- The strings of the list that fail to parse, in order: the
`erroneous_smiles` accumulator. -/
def erroneousOf {Mol : Type} (e : ChemEngine Mol) (l : List String) :
    List String :=
  l.filter (fun s => (e.molFromSmiles s).isNone)

/-- `get_ecfp(smiles_list, radius, nBits, useCounts)` from
`fingerprints.py`: one row per input, `DataFrame` keyed by the inputs, a
diagnostic and a `dropna` pass exactly when `erroneous_smiles` is
non-empty. -/
def get_ecfp {Mol : Type} (e : ChemEngine Mol) (smiles_list : List String)
    (radius nBits : Nat) (useCounts : Bool) : EncoderResult :=
  let fps := smiles_list.map (ecfpRow e radius nBits useCounts)
  let errs := erroneousOf e smiles_list
  let df := mkDataFrame smiles_list fps
  if errs.length > 0 then
    { table := dropna df, printed := Option.some (diagnosticMessage errs) }
  else
    { table := df, printed := Option.none }

/-- `get_ecfc(smiles_list, radius, nBits, useCounts)`: the source duplicates
the body of `get_ecfp` verbatim; only the default of `useCounts` differs. -/
def get_ecfc {Mol : Type} (e : ChemEngine Mol) (smiles_list : List String)
    (radius nBits : Nat) (useCounts : Bool) : EncoderResult :=
  let fps := smiles_list.map (ecfpRow e radius nBits useCounts)
  let errs := erroneousOf e smiles_list
  let df := mkDataFrame smiles_list fps
  if errs.length > 0 then
    { table := dropna df, printed := Option.some (diagnosticMessage errs) }
  else
    { table := df, printed := Option.none }

/-- Default of `useCounts` in `def get_ecfp(..., useCounts=False)`. -/
def ecfp_useCounts_default : Bool := false

/-- Default of `useCounts` in `def get_ecfc(..., useCounts=True)`. -/
def ecfc_useCounts_default : Bool := true

/-- `get_maccs(smiles_list)` from `fingerprints.py`. -/
def get_maccs {Mol : Type} (e : ChemEngine Mol) (smiles_list : List String) :
    EncoderResult :=
  let fps := smiles_list.map (maccsRow e)
  let errs := erroneousOf e smiles_list
  let df := mkDataFrame smiles_list fps
  if errs.length > 0 then
    { table := dropna df, printed := Option.some (diagnosticMessage errs) }
  else
    { table := df, printed := Option.none }

/-- `get_secfp(smiles_list, radius, nBits)` from `fingerprints.py`: the
`MHFPEncoder` is built with `n_permutations=nBits`, while every
`secfp_from_mol` call passes the hard-coded `length=2048`. -/
def get_secfp {Mol : Type} (e : ChemEngine Mol) (smiles_list : List String)
    (radius nBits : Nat) : EncoderResult :=
  let fps := smiles_list.map (secfpRow e nBits radius nBits)
  let errs := erroneousOf e smiles_list
  let df := mkDataFrame smiles_list fps
  if errs.length > 0 then
    { table := dropna df, printed := Option.some (diagnosticMessage errs) }
  else
    { table := df, printed := Option.none }

/-- A concrete engine satisfying the interface contract, used to instantiate
theorems and to refute over-general claims: every string except `XXXX`
parses, and every fingerprint call returns the all-ones vector of the
contractual length. -/
def toyEngine : ChemEngine String where
  molFromSmiles s := if s = "XXXX" then Option.none else Option.some s
  addHs m := m
  getHashedMorganFingerprint _ _ n := List.replicate n 1
  getMorganBitString _ _ n := List.replicate n '1'
  getMACCSKeysFingerprint _ := List.replicate 167 1
  secfp_from_mol _ _ len _ := List.replicate len 1

/-- The toy engine satisfies the interface contract. -/
theorem toyEngine_wf : toyEngine.WF := by
  refine ⟨?_, ?_, ?_, ?_, ?_, ?_⟩
  · intro m r n
    exact List.length_replicate n 1
  · intro m r n x hx
    rw [List.eq_of_mem_replicate hx]
    exact zero_le_one
  · intro m r n
    exact List.length_replicate n '1'
  · intro m r n c hc
    exact Or.inr (List.eq_of_mem_replicate hc)
  · intro m
    exact List.length_replicate 167 1
  · intro p m len r
    exact List.length_replicate len 1

/-! ### Generic encoder skeleton

All four source functions share one control flow; `runEncoder` captures it,
and each `get_*` is proved definitionally equal to an instance of it. -/

/-- The shared skeleton of the four encoders: one row per input via `f`,
table keyed by the inputs, diagnostic and `dropna` exactly when some input
failed to parse. -/
def runEncoder {Mol : Type} (e : ChemEngine Mol) (f : String → List Cell)
    (l : List String) : EncoderResult :=
  if (erroneousOf e l).length > 0 then
    { table := dropna (mkDataFrame l (l.map f)),
      printed := Option.some (diagnosticMessage (erroneousOf e l)) }
  else
    { table := mkDataFrame l (l.map f), printed := Option.none }

theorem get_ecfp_eq_run {Mol : Type} (e : ChemEngine Mol) (l : List String)
    (r n : Nat) (u : Bool) :
    get_ecfp e l r n u = runEncoder e (ecfpRow e r n u) l := rfl

theorem get_ecfc_eq_run {Mol : Type} (e : ChemEngine Mol) (l : List String)
    (r n : Nat) (u : Bool) :
    get_ecfc e l r n u = runEncoder e (ecfpRow e r n u) l := rfl

theorem get_maccs_eq_run {Mol : Type} (e : ChemEngine Mol) (l : List String) :
    get_maccs e l = runEncoder e (maccsRow e) l := rfl

theorem get_secfp_eq_run {Mol : Type} (e : ChemEngine Mol) (l : List String)
    (r n : Nat) :
    get_secfp e l r n = runEncoder e (secfpRow e n r n) l := rfl

/-! ### List-level helper lemmas -/

theorem maxRowLen_cons (r : List Cell) (data : List (List Cell)) :
    maxRowLen (r :: data) = max r.length (maxRowLen data) := rfl

theorem le_maxRowLen (data : List (List Cell)) (row : List Cell)
    (h : row ∈ data) : row.length ≤ maxRowLen data := by
  induction data with
  | nil => simp at h
  | cons r rest ih =>
      rcases List.mem_cons.mp h with h | h
      · subst h; exact (maxRowLen_cons row rest) ▸ le_max_left _ _
      · exact le_trans (ih h) ((maxRowLen_cons r rest) ▸ le_max_right _ _)

theorem maxRowLen_le (data : List (List Cell)) (m : Nat)
    (h : ∀ row ∈ data, row.length ≤ m) : maxRowLen data ≤ m := by
  induction data with
  | nil => exact Nat.zero_le m
  | cons r rest ih =>
      rw [maxRowLen_cons]
      exact max_le (h r (List.mem_cons_self r rest))
        (ih fun row hr => h row (List.mem_cons_of_mem r hr))

theorem padRow_eq_self (m : Nat) (r : List Cell) (h : m ≤ r.length) :
    padRow m r = r := by
  unfold padRow
  rw [Nat.sub_eq_zero_of_le h]
  simp

theorem length_padRow (m : Nat) (r : List Cell) :
    (padRow m r).length = max r.length m := by
  unfold padRow
  simp only [List.length_append, List.length_replicate]
  omega

theorem isNull_int (x : Int) : Cell.isNull (Cell.int x) = false := rfl

theorem isNull_char (c : Char) : Cell.isNull (Cell.char c) = false := rfl

theorem rowHasNull_map_int (xs : List Int) :
    rowHasNull (xs.map Cell.int) = false := by
  simp [rowHasNull, List.any_map, Function.comp, isNull_int]

theorem rowHasNull_map_char (xs : List Char) :
    rowHasNull (xs.map Cell.char) = false := by
  simp [rowHasNull, List.any_map, Function.comp, isNull_char]

theorem rowHasNull_padRow_replicate_null (m n : Nat) (hn : 0 < n) :
    rowHasNull (padRow m (List.replicate n Cell.null)) = true := by
  unfold padRow rowHasNull
  apply List.any_eq_true.mpr
  refine ⟨Cell.null, List.mem_append.mpr (Or.inl ?_), rfl⟩
  exact List.mem_replicate.mpr ⟨by omega, rfl⟩

theorem mem_zip_map_eq {α β : Type} (f : α → β) (l : List α) (p : α × β)
    (h : p ∈ l.zip (l.map f)) : p.1 ∈ l ∧ p.2 = f p.1 := by
  induction l with
  | nil => simp at h
  | cons a t ih =>
      simp only [List.map_cons, List.zip_cons_cons, List.mem_cons] at h
      rcases h with h | h
      · subst h; exact ⟨List.mem_cons_self a t, rfl⟩
      · have := ih h
        exact ⟨List.mem_cons_of_mem a this.1, this.2⟩

theorem filter_zip_map_length {α β : Type} (f : α → β) (p : α × β → Bool)
    (l : List α) :
    ((l.zip (l.map f)).filter p).length
      = (l.filter (fun a => p (a, f a))).length := by
  induction l with
  | nil => rfl
  | cons a t ih =>
      simp only [List.map_cons, List.zip_cons_cons, List.filter_cons]
      cases hp : p (a, f a) <;> simp [hp, ih]

/-! ### Facts about the skeleton -/

theorem runEncoder_no_err {Mol : Type} (e : ChemEngine Mol)
    (f : String → List Cell) (l : List String)
    (h : erroneousOf e l = []) :
    runEncoder e f l
      = { table := mkDataFrame l (l.map f), printed := Option.none } := by
  unfold runEncoder
  rw [h]
  simp

theorem runEncoder_err {Mol : Type} (e : ChemEngine Mol)
    (f : String → List Cell) (l : List String)
    (h : erroneousOf e l ≠ []) :
    runEncoder e f l
      = { table := dropna (mkDataFrame l (l.map f)),
          printed := Option.some (diagnosticMessage (erroneousOf e l)) } := by
  unfold runEncoder
  rw [if_pos (List.length_pos.mpr h)]

theorem mem_rows_mkDataFrame_map (l : List String) (f : String → List Cell)
    (kr : String × List Cell) (h : kr ∈ (mkDataFrame l (l.map f)).rows) :
    kr.1 ∈ l ∧ kr.2 = padRow (maxRowLen (l.map f)) (f kr.1) := by
  simp only [mkDataFrame, List.map_map] at h
  exact mem_zip_map_eq _ l kr h

theorem mem_rows_runEncoder {Mol : Type} (e : ChemEngine Mol)
    (f : String → List Cell) (l : List String) (kr : String × List Cell)
    (h : kr ∈ (runEncoder e f l).table.rows) :
    kr.1 ∈ l ∧ kr.2 = padRow (maxRowLen (l.map f)) (f kr.1) := by
  unfold runEncoder at h
  by_cases hc : (erroneousOf e l).length > 0
  · rw [if_pos hc] at h
    exact mem_rows_mkDataFrame_map l f kr (List.mem_of_mem_filter h)
  · rw [if_neg hc] at h
    exact mem_rows_mkDataFrame_map l f kr h

theorem rows_length_runEncoder {Mol : Type} (e : ChemEngine Mol)
    (f : String → List Cell) (l : List String) (n : Nat)
    (hf : ∀ s ∈ l, (f s).length = n) :
    ∀ kr ∈ (runEncoder e f l).table.rows, kr.2.length = n := by
  intro kr hkr
  obtain ⟨h1, h2⟩ := mem_rows_runEncoder e f l kr hkr
  have hlen : (f kr.1).length = n := hf kr.1 h1
  have hmax : maxRowLen (l.map f) ≤ n := by
    apply maxRowLen_le
    intro row hrow
    obtain ⟨s, hs, rfl⟩ := List.mem_map.mp hrow
    exact (hf s hs).le
  rw [h2, padRow_eq_self _ _ (by rw [hlen]; exact hmax)]
  exact hlen

/-! ### Per-row facts -/

theorem ecfpRow_none {Mol : Type} (e : ChemEngine Mol) (r n : Nat) (u : Bool)
    (s : String) (h : e.molFromSmiles s = Option.none) :
    ecfpRow e r n u s = List.replicate n Cell.null := by
  unfold ecfpRow
  rw [h]

theorem maccsRow_none {Mol : Type} (e : ChemEngine Mol) (s : String)
    (h : e.molFromSmiles s = Option.none) :
    maccsRow e s = List.replicate 167 Cell.null := by
  unfold maccsRow
  rw [h]

theorem secfpRow_none {Mol : Type} (e : ChemEngine Mol) (p r n : Nat)
    (s : String) (h : e.molFromSmiles s = Option.none) :
    secfpRow e p r n s = List.replicate n Cell.null := by
  unfold secfpRow
  rw [h]

theorem length_ecfpRow {Mol : Type} (e : ChemEngine Mol) (hwf : e.WF)
    (r n : Nat) (u : Bool) (s : String) : (ecfpRow e r n u s).length = n := by
  unfold ecfpRow
  cases hm : e.molFromSmiles s with
  | none => simp
  | some mol =>
      cases u
      · show (List.map Cell.char _).length = n
        rw [List.length_map]
        exact hwf.bitString_length _ _ _
      · show (List.map Cell.int _).length = n
        rw [List.length_map]
        exact hwf.hashedMorgan_length _ _ _

theorem length_maccsRow {Mol : Type} (e : ChemEngine Mol) (hwf : e.WF)
    (s : String) : (maccsRow e s).length = 167 := by
  unfold maccsRow
  cases hm : e.molFromSmiles s with
  | none => exact List.length_replicate 167 Cell.null
  | some mol => simp [List.length_map, hwf.maccs_length]

theorem length_secfpRow_some {Mol : Type} (e : ChemEngine Mol) (hwf : e.WF)
    (p r n : Nat) (s : String) (h : (e.molFromSmiles s).isSome = true) :
    (secfpRow e p r n s).length = 2048 := by
  obtain ⟨mol, hm⟩ := Option.isSome_iff_exists.mp h
  unfold secfpRow
  rw [hm]
  simp [List.length_map, hwf.secfp_length]

theorem rowHasNull_ecfpRow_some {Mol : Type} (e : ChemEngine Mol)
    (r n : Nat) (u : Bool) (s : String)
    (h : (e.molFromSmiles s).isSome = true) :
    rowHasNull (ecfpRow e r n u s) = false := by
  obtain ⟨mol, hm⟩ := Option.isSome_iff_exists.mp h
  unfold ecfpRow
  rw [hm]
  cases u <;> simp [rowHasNull_map_int, rowHasNull_map_char]

theorem rowHasNull_maccsRow_some {Mol : Type} (e : ChemEngine Mol)
    (s : String) (h : (e.molFromSmiles s).isSome = true) :
    rowHasNull (maccsRow e s) = false := by
  obtain ⟨mol, hm⟩ := Option.isSome_iff_exists.mp h
  unfold maccsRow
  rw [hm]
  exact rowHasNull_map_int _

theorem rowHasNull_secfpRow_some {Mol : Type} (e : ChemEngine Mol)
    (p r n : Nat) (s : String) (h : (e.molFromSmiles s).isSome = true) :
    rowHasNull (secfpRow e p r n s) = false := by
  obtain ⟨mol, hm⟩ := Option.isSome_iff_exists.mp h
  unfold secfpRow
  rw [hm]
  exact rowHasNull_map_int _

theorem mem_erroneousOf {Mol : Type} (e : ChemEngine Mol) (l : List String)
    (s : String) :
    s ∈ erroneousOf e l ↔ s ∈ l ∧ (e.molFromSmiles s).isNone = true := by
  unfold erroneousOf
  exact List.mem_filter

theorem erroneousOf_eq_nil {Mol : Type} (e : ChemEngine Mol) (l : List String)
    (h : ∀ s ∈ l, (e.molFromSmiles s).isSome = true) :
    erroneousOf e l = [] := by
  unfold erroneousOf
  apply List.filter_eq_nil_iff.mpr
  intro s hs
  have h2 := h s hs
  cases ho : e.molFromSmiles s with
  | none => rw [ho] at h2; exact absurd h2 (by simp)
  | some mol => simp [ho]

theorem all_some_of_erroneousOf_nil {Mol : Type} (e : ChemEngine Mol)
    (l : List String) (h : erroneousOf e l = []) :
    ∀ s ∈ l, (e.molFromSmiles s).isSome = true := by
  intro s hs
  unfold erroneousOf at h
  have h2 := List.filter_eq_nil_iff.mp h s hs
  cases ho : e.molFromSmiles s with
  | none => exact absurd (by rw [ho]; rfl) h2
  | some mol => rfl

/-- Row order and keys for an all-valid call: keys come back in input
order. -/
theorem rows_keys_runEncoder_no_err {Mol : Type} (e : ChemEngine Mol)
    (f : String → List Cell) (l : List String)
    (h : erroneousOf e l = []) :
    (runEncoder e f l).table.rows.map Prod.fst = l := by
  rw [runEncoder_no_err e f l h]
  simp only [mkDataFrame]
  apply List.map_fst_zip
  simp

/-- Row count of one encoder call: as many rows as inputs whose parse
succeeded, provided valid padded rows have no null and invalid padded rows
have one. -/
theorem rows_count_runEncoder {Mol : Type} (e : ChemEngine Mol)
    (f : String → List Cell) (l : List String)
    (hvalid : ∀ s ∈ l, (e.molFromSmiles s).isSome = true →
        rowHasNull (padRow (maxRowLen (l.map f)) (f s)) = false)
    (hinvalid : ∀ s ∈ l, (e.molFromSmiles s).isSome = false →
        rowHasNull (padRow (maxRowLen (l.map f)) (f s)) = true) :
    (runEncoder e f l).table.rows.length
      = (l.filter (fun s => (e.molFromSmiles s).isSome)).length := by
  by_cases hc : erroneousOf e l = []
  · rw [runEncoder_no_err e f l hc]
    have hall := all_some_of_erroneousOf_nil e l hc
    rw [List.filter_eq_self.mpr hall]
    simp [mkDataFrame, List.length_zip]
  · rw [runEncoder_err e f l hc]
    simp only [dropna, mkDataFrame, List.map_map]
    rw [filter_zip_map_length]
    apply congrArg List.length
    apply List.filter_congr
    intro s hs
    cases h : (e.molFromSmiles s).isSome with
    | true => simp [Function.comp, hvalid s hs h]
    | false => simp [Function.comp, hinvalid s hs h]

theorem eq_none_of_isSome_false {α : Type} (o : Option α)
    (h : o.isSome = false) : o = Option.none := by
  cases o with
  | none => rfl
  | some a => simp at h

theorem length_secfpRow_nBits_2048 {Mol : Type} (e : ChemEngine Mol)
    (hwf : e.WF) (p r : Nat) (s : String) :
    (secfpRow e p r 2048 s).length = 2048 := by
  cases ho : e.molFromSmiles s with
  | none =>
      rw [secfpRow_none e p r 2048 s ho]
      exact List.length_replicate 2048 Cell.null
  | some mol =>
      exact length_secfpRow_some e hwf p r 2048 s (by rw [ho]; rfl)

theorem ecfpRow_some_bits {Mol : Type} (e : ChemEngine Mol) (r n : Nat)
    (s : String) (mol : Mol) (hm : e.molFromSmiles s = Option.some mol) :
    ecfpRow e r n false s
      = (e.getMorganBitString (e.addHs mol) r n).map Cell.char := by
  unfold ecfpRow
  rw [hm]
  rfl

theorem ecfpRow_some_counts {Mol : Type} (e : ChemEngine Mol) (r n : Nat)
    (s : String) (mol : Mol) (hm : e.molFromSmiles s = Option.some mol) :
    ecfpRow e r n true s
      = (e.getHashedMorganFingerprint (e.addHs mol) r n).map Cell.int := by
  unfold ecfpRow
  rw [hm]
  rfl

theorem not_null_of_rowHasNull_false (r : List Cell)
    (h : rowHasNull r = false) : ∀ c ∈ r, c ≠ Cell.null := by
  intro c hc hcn
  subst hcn
  unfold rowHasNull at h
  rw [List.any_eq_false] at h
  exact h Cell.null hc rfl

theorem mem_rows_runEncoder_err {Mol : Type} (e : ChemEngine Mol)
    (f : String → List Cell) (l : List String) (kr : String × List Cell)
    (h : erroneousOf e l ≠ []) (hkr : kr ∈ (runEncoder e f l).table.rows) :
    kr.1 ∈ l ∧ kr.2 = padRow (maxRowLen (l.map f)) (f kr.1)
      ∧ rowHasNull kr.2 = false := by
  rw [runEncoder_err e f l h] at hkr
  simp only [dropna] at hkr
  have h1 := List.mem_of_mem_filter hkr
  have h2 := (List.mem_filter.mp hkr).2
  obtain ⟨ha, hb⟩ := mem_rows_mkDataFrame_map l f kr h1
  exact ⟨ha, hb, by simpa using h2⟩

/-- The diagnostic-and-drop behaviour of one skeleton call holding an
unparsable input whose padded placeholder contains a null. -/
theorem runEncoder_drop_props {Mol : Type} (e : ChemEngine Mol)
    (f : String → List Cell) (l : List String) (s : String) (hs : s ∈ l)
    (hbad : e.molFromSmiles s = Option.none)
    (hfs : rowHasNull (padRow (maxRowLen (l.map f)) (f s)) = true) :
    (runEncoder e f l).printed
        = Option.some (diagnosticMessage (erroneousOf e l)) ∧
    (∀ kr ∈ (runEncoder e f l).table.rows,
        kr.1 ≠ s ∧ ∀ c ∈ kr.2, c ≠ Cell.null) := by
  have hmem : s ∈ erroneousOf e l :=
    (mem_erroneousOf e l s).mpr ⟨hs, by rw [hbad]; rfl⟩
  have hne : erroneousOf e l ≠ [] := List.ne_nil_of_mem hmem
  constructor
  · rw [runEncoder_err e f l hne]
  · intro kr hkr
    obtain ⟨h1, h2, h3⟩ := mem_rows_runEncoder_err e f l kr hne hkr
    constructor
    · intro heq
      rw [heq] at h2
      rw [h2, hfs] at h3
      exact Bool.noConfusion h3
    · exact not_null_of_rowHasNull_false kr.2 h3

/-! ### The claims -/

/-- C1, counterexample: the claim says every valid row returned by
`get_secfp(smiles_list, radius, nBits)` has exactly `nBits` entries; with
`nBits = 4` and the single valid input `C`, the one returned row has 2048
entries (the hard-coded `length=2048` of the `secfp_from_mol` call), not 4. -/
theorem C1_counterexample :
    ¬ (∀ kr ∈ (get_secfp toyEngine ["C"] 3 4).table.rows,
        kr.2.length = 4) := by
  intro h
  have hv : ∀ s ∈ ["C"], (toyEngine.molFromSmiles s).isSome = true := by decide
  have hnil : erroneousOf toyEngine ["C"] = [] :=
    erroneousOf_eq_nil toyEngine ["C"] hv
  have hrow : ∀ kr ∈ (get_secfp toyEngine ["C"] 3 4).table.rows,
      kr.2.length = 2048 := by
    rw [get_secfp_eq_run]
    exact rows_length_runEncoder toyEngine _ _ 2048
      (fun s hs => length_secfpRow_some toyEngine toyEngine_wf 4 3 4 s (hv s hs))
  have hkeys : (get_secfp toyEngine ["C"] 3 4).table.rows.map Prod.fst
      = ["C"] := by
    rw [get_secfp_eq_run]
    exact rows_keys_runEncoder_no_err toyEngine _ _ hnil
  have hne : (get_secfp toyEngine ["C"] 3 4).table.rows ≠ [] := by
    intro hnil2
    rw [hnil2] at hkeys
    exact List.noConfusion hkeys
  obtain ⟨kr, hkr⟩ := List.exists_mem_of_ne_nil _ hne
  have h1 := h kr hkr
  have h2 := hrow kr hkr
  omega

/-- C1, amended: varying `nBits` sets every returned row's length to exactly
`nBits` for `get_ecfp` and `get_ecfc`; for `get_secfp`, `nBits` sizes the
`MHFPEncoder` permutation count and the placeholder rows only, and on an
all-valid input list every returned row has exactly 2048 entries, the fixed
internal length constant, independent of `nBits`. -/
theorem C1_width_amended {Mol : Type} (e : ChemEngine Mol) (hwf : e.WF)
    (l : List String) (r n : Nat) (u : Bool) :
    (∀ kr ∈ (get_ecfp e l r n u).table.rows, kr.2.length = n) ∧
    (∀ kr ∈ (get_ecfc e l r n u).table.rows, kr.2.length = n) ∧
    ((∀ s ∈ l, (e.molFromSmiles s).isSome = true) →
      ∀ kr ∈ (get_secfp e l r n).table.rows, kr.2.length = 2048) := by
  refine ⟨?_, ?_, ?_⟩
  · rw [get_ecfp_eq_run]
    exact rows_length_runEncoder e _ l n
      (fun s _ => length_ecfpRow e hwf r n u s)
  · rw [get_ecfc_eq_run]
    exact rows_length_runEncoder e _ l n
      (fun s _ => length_ecfpRow e hwf r n u s)
  · intro hv
    rw [get_secfp_eq_run]
    exact rows_length_runEncoder e _ l 2048
      (fun s hs => length_secfpRow_some e hwf n r n s (hv s hs))

/-- C1, witness: the amended statement instantiated at the toy engine. -/
theorem C1_witness :
    (∀ kr ∈ (get_ecfp toyEngine ["C", "CO"] 2 8 false).table.rows,
        kr.2.length = 8) ∧
    (∀ kr ∈ (get_ecfc toyEngine ["C", "CO"] 2 8 false).table.rows,
        kr.2.length = 8) ∧
    ((∀ s ∈ ["C", "CO"], (toyEngine.molFromSmiles s).isSome = true) →
      ∀ kr ∈ (get_secfp toyEngine ["C", "CO"] 2 8).table.rows,
        kr.2.length = 2048) :=
  C1_width_amended toyEngine toyEngine_wf ["C", "CO"] 2 8 false

/-- C2, counterexample: in a single `get_secfp` call with `nBits = 4`, the
placeholder row appended for the unparsable `XXXX` has 4 entries while the
row computed for the valid `C` has 2048 entries. -/
theorem C2_counterexample :
    ¬ ((secfpRow toyEngine 4 3 4 "XXXX").length
        = (secfpRow toyEngine 4 3 4 "C").length) := by
  have h1 : secfpRow toyEngine 4 3 4 "XXXX" = List.replicate 4 Cell.null :=
    secfpRow_none toyEngine 4 3 4 "XXXX" (by decide)
  have h2 : (secfpRow toyEngine 4 3 4 "C").length = 2048 :=
    length_secfpRow_some toyEngine toyEngine_wf 4 3 4 "C" (by decide)
  rw [h1, List.length_replicate, h2]
  omega

/-- C2, amended: within one call, all appended rows (placeholder or valid)
have one common length for `get_ecfp`/`get_ecfc` (`nBits`) and for
`get_maccs` (167) at every parameter choice; for `get_secfp` the placeholder
length `nBits` matches the valid-row length exactly when `nBits = 2048`. -/
theorem C2_row_length_amended {Mol : Type} (e : ChemEngine Mol) (hwf : e.WF)
    (r n : Nat) (u : Bool) (s t : String) :
    (ecfpRow e r n u s).length = (ecfpRow e r n u t).length ∧
    (maccsRow e s).length = (maccsRow e t).length ∧
    (secfpRow e 2048 r 2048 s).length = (secfpRow e 2048 r 2048 t).length := by
  refine ⟨?_, ?_, ?_⟩
  · rw [length_ecfpRow e hwf r n u s, length_ecfpRow e hwf r n u t]
  · rw [length_maccsRow e hwf s, length_maccsRow e hwf t]
  · rw [length_secfpRow_nBits_2048 e hwf 2048 r s,
      length_secfpRow_nBits_2048 e hwf 2048 r t]

/-- C2, witness: the amended statement instantiated at the toy engine, with
an unparsable and a parsable string in the same call. -/
theorem C2_witness :
    (ecfpRow toyEngine 2 8 false "XXXX").length
        = (ecfpRow toyEngine 2 8 false "C").length ∧
    (maccsRow toyEngine "XXXX").length = (maccsRow toyEngine "C").length ∧
    (secfpRow toyEngine 2048 3 2048 "XXXX").length
        = (secfpRow toyEngine 2048 3 2048 "C").length :=
  C2_row_length_amended toyEngine toyEngine_wf 2 8 false "XXXX" "C"

/-- C3: `get_ecfc` agrees with `get_ecfp` at every argument (the source
duplicates the body verbatim); the two defaults of `useCounts` are `true`
and `false` respectively, so the call `get_ecfc(smiles_list, radius, nBits)`
equals `get_ecfp(smiles_list, radius, nBits, useCounts=true)`. -/
theorem C3_ecfc_refines_ecfp {Mol : Type} (e : ChemEngine Mol)
    (l : List String) (r n : Nat) :
    get_ecfc e l r n ecfc_useCounts_default = get_ecfp e l r n true ∧
    ecfc_useCounts_default = true ∧
    ecfp_useCounts_default = false ∧
    (∀ u : Bool, get_ecfc e l r n u = get_ecfp e l r n u) :=
  ⟨rfl, rfl, rfl, fun _ => rfl⟩

set_option maxRecDepth 4000 in
/-- C4, counterexample: with `useCounts=false` the vector entries produced by
`get_ecfp` are not the integers 0/1: on the valid input `C` every returned
cell is a one-character string (`list(bv.ToBitString())` yields characters),
so no cell equals the integer 0 or the integer 1. -/
theorem C4_counterexample :
    ¬ (∀ kr ∈ (get_ecfp toyEngine ["C"] 2 4 false).table.rows,
        ∀ c ∈ kr.2, c = Cell.int 0 ∨ c = Cell.int 1) := by decide

/-- C4, amended: on an all-valid input list, every cell returned by
`get_ecfp` with `useCounts=false` is the one-character string `0` or `1`
(not an integer), and with `useCounts=true` every cell is a non-negative
integer. -/
theorem C4_cell_values_amended {Mol : Type} (e : ChemEngine Mol)
    (hwf : e.WF) (l : List String) (r n : Nat)
    (hv : ∀ s ∈ l, (e.molFromSmiles s).isSome = true) :
    (∀ kr ∈ (get_ecfp e l r n false).table.rows, ∀ c ∈ kr.2,
        c = Cell.char '0' ∨ c = Cell.char '1') ∧
    (∀ kr ∈ (get_ecfp e l r n true).table.rows, ∀ c ∈ kr.2,
        ∃ k : Int, 0 ≤ k ∧ c = Cell.int k) := by
  constructor
  · intro kr hkr c hc
    rw [get_ecfp_eq_run] at hkr
    obtain ⟨h1, h2⟩ := mem_rows_runEncoder e _ l kr hkr
    obtain ⟨mol, hm⟩ := Option.isSome_iff_exists.mp (hv kr.1 h1)
    have hmax : maxRowLen (l.map (ecfpRow e r n false)) ≤ n := by
      apply maxRowLen_le
      intro row hrow
      obtain ⟨a, ha, rfl⟩ := List.mem_map.mp hrow
      exact (length_ecfpRow e hwf r n false a).le
    rw [h2, padRow_eq_self _ _
      (by rw [length_ecfpRow e hwf r n false kr.1]; exact hmax)] at hc
    rw [ecfpRow_some_bits e r n kr.1 mol hm] at hc
    obtain ⟨ch, hch, rfl⟩ := List.mem_map.mp hc
    rcases hwf.bitString_bits _ _ _ ch hch with h | h
    · left; rw [h]
    · right; rw [h]
  · intro kr hkr c hc
    rw [get_ecfp_eq_run] at hkr
    obtain ⟨h1, h2⟩ := mem_rows_runEncoder e _ l kr hkr
    obtain ⟨mol, hm⟩ := Option.isSome_iff_exists.mp (hv kr.1 h1)
    have hmax : maxRowLen (l.map (ecfpRow e r n true)) ≤ n := by
      apply maxRowLen_le
      intro row hrow
      obtain ⟨a, ha, rfl⟩ := List.mem_map.mp hrow
      exact (length_ecfpRow e hwf r n true a).le
    rw [h2, padRow_eq_self _ _
      (by rw [length_ecfpRow e hwf r n true kr.1]; exact hmax)] at hc
    rw [ecfpRow_some_counts e r n kr.1 mol hm] at hc
    obtain ⟨k, hk, rfl⟩ := List.mem_map.mp hc
    exact ⟨k, hwf.hashedMorgan_nonneg _ _ _ k hk, rfl⟩

/-- C4, witness: the amended statement instantiated at the toy engine. -/
theorem C4_witness :
    (∀ kr ∈ (get_ecfp toyEngine ["C", "CO"] 2 8 false).table.rows,
        ∀ c ∈ kr.2, c = Cell.char '0' ∨ c = Cell.char '1') ∧
    (∀ kr ∈ (get_ecfp toyEngine ["C", "CO"] 2 8 true).table.rows,
        ∀ c ∈ kr.2, ∃ k : Int, 0 ≤ k ∧ c = Cell.int k) :=
  C4_cell_values_amended toyEngine toyEngine_wf ["C", "CO"] 2 8 (by decide)

/-- C5: when the input list contains an unparsable string `s`, each of the
four encoders returns normally, its printed output is exactly the one
diagnostic listing the erroneous strings (among them `s`), and the returned
table has no row keyed `s` and no row containing a null cell.  (The positive
width `0 < nBits` matches the encoders' use; at width 0 the placeholder is an
empty row that `dropna` cannot detect.) -/
theorem C5_unparsable_degrades {Mol : Type} (e : ChemEngine Mol)
    (l : List String) (r n : Nat) (u : Bool) (s : String) (hs : s ∈ l)
    (hbad : e.molFromSmiles s = Option.none) (hn : 0 < n) :
    ((get_ecfp e l r n u).printed
        = Option.some (diagnosticMessage (erroneousOf e l)) ∧
      (get_ecfc e l r n u).printed
        = Option.some (diagnosticMessage (erroneousOf e l)) ∧
      (get_maccs e l).printed
        = Option.some (diagnosticMessage (erroneousOf e l)) ∧
      (get_secfp e l r n).printed
        = Option.some (diagnosticMessage (erroneousOf e l))) ∧
    s ∈ erroneousOf e l ∧
    (∀ kr ∈ (get_ecfp e l r n u).table.rows,
        kr.1 ≠ s ∧ ∀ c ∈ kr.2, c ≠ Cell.null) ∧
    (∀ kr ∈ (get_ecfc e l r n u).table.rows,
        kr.1 ≠ s ∧ ∀ c ∈ kr.2, c ≠ Cell.null) ∧
    (∀ kr ∈ (get_maccs e l).table.rows,
        kr.1 ≠ s ∧ ∀ c ∈ kr.2, c ≠ Cell.null) ∧
    (∀ kr ∈ (get_secfp e l r n).table.rows,
        kr.1 ≠ s ∧ ∀ c ∈ kr.2, c ≠ Cell.null) := by
  have hfs1 : rowHasNull (padRow (maxRowLen (l.map (ecfpRow e r n u)))
      (ecfpRow e r n u s)) = true := by
    rw [ecfpRow_none e r n u s hbad]
    exact rowHasNull_padRow_replicate_null _ n hn
  have hfs2 : rowHasNull (padRow (maxRowLen (l.map (maccsRow e)))
      (maccsRow e s)) = true := by
    rw [maccsRow_none e s hbad]
    exact rowHasNull_padRow_replicate_null _ 167 (by omega)
  have hfs3 : rowHasNull (padRow (maxRowLen (l.map (secfpRow e n r n)))
      (secfpRow e n r n s)) = true := by
    rw [secfpRow_none e n r n s hbad]
    exact rowHasNull_padRow_replicate_null _ n hn
  have h1 := runEncoder_drop_props e (ecfpRow e r n u) l s hs hbad hfs1
  have h2 := runEncoder_drop_props e (maccsRow e) l s hs hbad hfs2
  have h3 := runEncoder_drop_props e (secfpRow e n r n) l s hs hbad hfs3
  have hmem : s ∈ erroneousOf e l :=
    (mem_erroneousOf e l s).mpr ⟨hs, by rw [hbad]; rfl⟩
  rw [get_ecfp_eq_run, get_ecfc_eq_run, get_maccs_eq_run, get_secfp_eq_run]
  exact ⟨⟨h1.1, h1.1, h2.1, h3.1⟩, hmem, h1.2, h1.2, h2.2, h3.2⟩

/-- C5, witness: the statement instantiated at the toy engine, where `XXXX`
is the unparsable string. -/
theorem C5_witness :
    ((get_ecfp toyEngine ["C", "XXXX"] 2 4 false).printed
        = Option.some (diagnosticMessage (erroneousOf toyEngine ["C", "XXXX"])) ∧
      (get_ecfc toyEngine ["C", "XXXX"] 2 4 false).printed
        = Option.some (diagnosticMessage (erroneousOf toyEngine ["C", "XXXX"])) ∧
      (get_maccs toyEngine ["C", "XXXX"]).printed
        = Option.some (diagnosticMessage (erroneousOf toyEngine ["C", "XXXX"])) ∧
      (get_secfp toyEngine ["C", "XXXX"] 2 4).printed
        = Option.some (diagnosticMessage (erroneousOf toyEngine ["C", "XXXX"]))) ∧
    "XXXX" ∈ erroneousOf toyEngine ["C", "XXXX"] ∧
    (∀ kr ∈ (get_ecfp toyEngine ["C", "XXXX"] 2 4 false).table.rows,
        kr.1 ≠ "XXXX" ∧ ∀ c ∈ kr.2, c ≠ Cell.null) ∧
    (∀ kr ∈ (get_ecfc toyEngine ["C", "XXXX"] 2 4 false).table.rows,
        kr.1 ≠ "XXXX" ∧ ∀ c ∈ kr.2, c ≠ Cell.null) ∧
    (∀ kr ∈ (get_maccs toyEngine ["C", "XXXX"]).table.rows,
        kr.1 ≠ "XXXX" ∧ ∀ c ∈ kr.2, c ≠ Cell.null) ∧
    (∀ kr ∈ (get_secfp toyEngine ["C", "XXXX"] 2 4).table.rows,
        kr.1 ≠ "XXXX" ∧ ∀ c ∈ kr.2, c ≠ Cell.null) :=
  C5_unparsable_degrades toyEngine ["C", "XXXX"] 2 4 false "XXXX"
    (by decide) (by decide) (by decide)

/-- C6: on an all-valid input list every encoder returns one row per input,
keyed by the original strings, in input order: the key column of the
returned table is exactly the input list. -/
theorem C6_order_preserved {Mol : Type} (e : ChemEngine Mol)
    (l : List String) (r n : Nat) (u : Bool)
    (hv : ∀ s ∈ l, (e.molFromSmiles s).isSome = true) :
    (get_ecfp e l r n u).table.rows.map Prod.fst = l ∧
    (get_ecfc e l r n u).table.rows.map Prod.fst = l ∧
    (get_maccs e l).table.rows.map Prod.fst = l ∧
    (get_secfp e l r n).table.rows.map Prod.fst = l := by
  have hnil := erroneousOf_eq_nil e l hv
  rw [get_ecfp_eq_run, get_ecfc_eq_run, get_maccs_eq_run, get_secfp_eq_run]
  exact ⟨rows_keys_runEncoder_no_err e _ l hnil,
    rows_keys_runEncoder_no_err e _ l hnil,
    rows_keys_runEncoder_no_err e _ l hnil,
    rows_keys_runEncoder_no_err e _ l hnil⟩

/-- C6, witness: the statement instantiated at the toy engine on an
all-valid list. -/
theorem C6_witness :
    (get_ecfp toyEngine ["C", "CO"] 2 4 false).table.rows.map Prod.fst
      = ["C", "CO"] ∧
    (get_ecfc toyEngine ["C", "CO"] 2 4 false).table.rows.map Prod.fst
      = ["C", "CO"] ∧
    (get_maccs toyEngine ["C", "CO"]).table.rows.map Prod.fst
      = ["C", "CO"] ∧
    (get_secfp toyEngine ["C", "CO"] 2 4).table.rows.map Prod.fst
      = ["C", "CO"] :=
  C6_order_preserved toyEngine ["C", "CO"] 2 4 false (by decide)

/-- C7: each encoder is deterministic: two invocations on the same input
list with the same parameters (and, in the embedding, the same external
engine, hence the same permutation configuration) return the same result,
and the per-row functions agree on equal SMILES strings.  The embedding is
a pure function of its inputs — the source has no randomness. -/
theorem C7_deterministic {Mol : Type} (e : ChemEngine Mol)
    (l1 l2 : List String) (r n : Nat) (u : Bool) (h : l1 = l2) :
    get_ecfp e l1 r n u = get_ecfp e l2 r n u ∧
    get_ecfc e l1 r n u = get_ecfc e l2 r n u ∧
    get_maccs e l1 = get_maccs e l2 ∧
    get_secfp e l1 r n = get_secfp e l2 r n ∧
    (∀ s t : String, s = t →
      ecfpRow e r n u s = ecfpRow e r n u t ∧
      maccsRow e s = maccsRow e t ∧
      secfpRow e n r n s = secfpRow e n r n t) := by
  subst h
  exact ⟨rfl, rfl, rfl, rfl, fun s t hst => by
    subst hst
    exact ⟨rfl, rfl, rfl⟩⟩

/-- C7, witness: the statement instantiated at the toy engine. -/
theorem C7_witness :
    get_ecfp toyEngine ["C"] 2 4 false = get_ecfp toyEngine ["C"] 2 4 false ∧
    get_ecfc toyEngine ["C"] 2 4 false = get_ecfc toyEngine ["C"] 2 4 false ∧
    get_maccs toyEngine ["C"] = get_maccs toyEngine ["C"] ∧
    get_secfp toyEngine ["C"] 2 4 = get_secfp toyEngine ["C"] 2 4 ∧
    (∀ s t : String, s = t →
      ecfpRow toyEngine 2 4 false s = ecfpRow toyEngine 2 4 false t ∧
      maccsRow toyEngine s = maccsRow toyEngine t ∧
      secfpRow toyEngine 4 2 4 s = secfpRow toyEngine 4 2 4 t) :=
  C7_deterministic toyEngine ["C"] ["C"] 2 4 false rfl

/-- C8: when every input parses, each encoder prints nothing and returns the
assembled table unfiltered — the drop is gated on the erroneous-string list
alone, so this holds for an arbitrary engine, even one producing rows that
do contain nulls for valid molecules (no well-formedness hypothesis). -/
theorem C8_no_filter_when_all_valid {Mol : Type} (e : ChemEngine Mol)
    (l : List String) (r n : Nat) (u : Bool)
    (hv : ∀ s ∈ l, (e.molFromSmiles s).isSome = true) :
    get_ecfp e l r n u
      = { table := mkDataFrame l (l.map (ecfpRow e r n u)),
          printed := Option.none } ∧
    get_ecfc e l r n u
      = { table := mkDataFrame l (l.map (ecfpRow e r n u)),
          printed := Option.none } ∧
    get_maccs e l
      = { table := mkDataFrame l (l.map (maccsRow e)),
          printed := Option.none } ∧
    get_secfp e l r n
      = { table := mkDataFrame l (l.map (secfpRow e n r n)),
          printed := Option.none } := by
  have hnil := erroneousOf_eq_nil e l hv
  rw [get_ecfp_eq_run, get_ecfc_eq_run, get_maccs_eq_run, get_secfp_eq_run]
  exact ⟨runEncoder_no_err e _ l hnil, runEncoder_no_err e _ l hnil,
    runEncoder_no_err e _ l hnil, runEncoder_no_err e _ l hnil⟩

/-- C8, witness: the statement instantiated at the toy engine. -/
theorem C8_witness :
    get_ecfp toyEngine ["C", "CO"] 2 4 false
      = { table := mkDataFrame ["C", "CO"]
            (["C", "CO"].map (ecfpRow toyEngine 2 4 false)),
          printed := Option.none } ∧
    get_ecfc toyEngine ["C", "CO"] 2 4 false
      = { table := mkDataFrame ["C", "CO"]
            (["C", "CO"].map (ecfpRow toyEngine 2 4 false)),
          printed := Option.none } ∧
    get_maccs toyEngine ["C", "CO"]
      = { table := mkDataFrame ["C", "CO"]
            (["C", "CO"].map (maccsRow toyEngine)),
          printed := Option.none } ∧
    get_secfp toyEngine ["C", "CO"] 2 4
      = { table := mkDataFrame ["C", "CO"]
            (["C", "CO"].map (secfpRow toyEngine 4 2 4)),
          printed := Option.none } :=
  C8_no_filter_when_all_valid toyEngine ["C", "CO"] 2 4 false (by decide)

/-- C9: on the empty input list every encoder returns an empty table and
prints nothing. -/
theorem C9_empty_input {Mol : Type} (e : ChemEngine Mol) (r n : Nat)
    (u : Bool) :
    get_ecfp e [] r n u
      = { table := { rows := [] }, printed := Option.none } ∧
    get_ecfc e [] r n u
      = { table := { rows := [] }, printed := Option.none } ∧
    get_maccs e []
      = { table := { rows := [] }, printed := Option.none } ∧
    get_secfp e [] r n
      = { table := { rows := [] }, printed := Option.none } :=
  ⟨rfl, rfl, rfl, rfl⟩

theorem maxRowLen_nil : maxRowLen [] = 0 := rfl

theorem rowHasNull_padRow_of_lt (m : Nat) (v : List Cell)
    (h : v.length < m) : rowHasNull (padRow m v) = true := by
  unfold padRow rowHasNull
  apply List.any_eq_true.mpr
  refine ⟨Cell.null, List.mem_append.mpr (Or.inr ?_), rfl⟩
  exact List.mem_replicate.mpr ⟨by omega, rfl⟩

theorem secfpRow_length_le {Mol : Type} (e : ChemEngine Mol) (hwf : e.WF)
    (p r n : Nat) (hn : n ≤ 2048) (s : String) :
    (secfpRow e p r n s).length ≤ 2048 := by
  cases ho : e.molFromSmiles s with
  | none =>
      rw [secfpRow_none e p r n s ho, List.length_replicate]
      exact hn
  | some mol =>
      rw [length_secfpRow_some e hwf p r n s (by rw [ho]; rfl)]

/-- C10, counterexample: with `nBits = 2049` and input `[C, XXXX]`,
`get_secfp` returns zero rows although one input parsed: the valid row has
2048 entries, pandas pads it with a NaN up to the 2049-column placeholder,
and the `dropna` pass (triggered by the erroneous `XXXX`) then drops the
valid row too. -/
theorem C10_counterexample :
    ¬ ((get_secfp toyEngine ["C", "XXXX"] 3 2049).table.rows.length
        = (List.filter (fun s => (toyEngine.molFromSmiles s).isSome)
            ["C", "XXXX"]).length) := by
  intro h
  have hbadX : toyEngine.molFromSmiles "XXXX" = Option.none := by decide
  have hsomeC : (toyEngine.molFromSmiles "C").isSome = true := by decide
  have hne : erroneousOf toyEngine ["C", "XXXX"] ≠ [] :=
    List.ne_nil_of_mem ((mem_erroneousOf toyEngine _ "XXXX").mpr
      ⟨by decide, by rw [hbadX]; rfl⟩)
  have hlenC : (secfpRow toyEngine 2049 3 2049 "C").length = 2048 :=
    length_secfpRow_some toyEngine toyEngine_wf 2049 3 2049 "C" hsomeC
  have hfX : secfpRow toyEngine 2049 3 2049 "XXXX"
      = List.replicate 2049 Cell.null :=
    secfpRow_none toyEngine 2049 3 2049 "XXXX" hbadX
  have hm : maxRowLen (["C", "XXXX"].map (secfpRow toyEngine 2049 3 2049))
      = 2049 := by
    simp only [List.map_cons, List.map_nil, maxRowLen_cons, maxRowLen_nil]
    rw [hlenC, hfX, List.length_replicate]
    decide
  have hrows : (get_secfp toyEngine ["C", "XXXX"] 3 2049).table.rows = [] := by
    apply List.eq_nil_iff_forall_not_mem.mpr
    intro kr hkr
    rw [get_secfp_eq_run] at hkr
    obtain ⟨h1, h2, h3⟩ := mem_rows_runEncoder_err toyEngine
      (secfpRow toyEngine 2049 3 2049) _ kr hne hkr
    rcases List.mem_cons.mp h1 with hk | hk
    · have hnull : rowHasNull kr.2 = true := by
        rw [h2, hk, hm]
        exact rowHasNull_padRow_of_lt 2049 _ (by rw [hlenC]; omega)
      rw [hnull] at h3
      exact Bool.noConfusion h3
    · rcases List.mem_cons.mp hk with hk2 | hk2
      · have hnull : rowHasNull kr.2 = true := by
          rw [h2, hk2, hfX]
          exact rowHasNull_padRow_replicate_null _ 2049 (by omega)
        rw [hnull] at h3
        exact Bool.noConfusion h3
      · simp at hk2
  rw [hrows] at h
  have hflt : (List.filter (fun s => (toyEngine.molFromSmiles s).isSome)
      ["C", "XXXX"]).length = 1 := by decide
  rw [hflt] at h
  exact Nat.noConfusion h

/-- C10, amended: for every input list (duplicates counted separately) the
row count of the returned table equals the number of inputs that parsed,
for `get_ecfp`, `get_ecfc` and `get_maccs` at every positive width, and for
`get_secfp` provided `nBits ≤ 2048` (beyond 2048, pandas NaN-padding of the
2048-entry valid rows makes the `dropna` pass remove them as well). -/
theorem C10_count_amended {Mol : Type} (e : ChemEngine Mol) (hwf : e.WF)
    (l : List String) (r n : Nat) (u : Bool) (hn : 0 < n) :
    (get_ecfp e l r n u).table.rows.length
      = (l.filter (fun s => (e.molFromSmiles s).isSome)).length ∧
    (get_ecfc e l r n u).table.rows.length
      = (l.filter (fun s => (e.molFromSmiles s).isSome)).length ∧
    (get_maccs e l).table.rows.length
      = (l.filter (fun s => (e.molFromSmiles s).isSome)).length ∧
    (n ≤ 2048 → (get_secfp e l r n).table.rows.length
      = (l.filter (fun s => (e.molFromSmiles s).isSome)).length) := by
  have hecfp : (runEncoder e (ecfpRow e r n u) l).table.rows.length
      = (l.filter (fun s => (e.molFromSmiles s).isSome)).length := by
    have hmax : maxRowLen (l.map (ecfpRow e r n u)) ≤ n := by
      apply maxRowLen_le
      intro row hrow
      obtain ⟨a, ha, rfl⟩ := List.mem_map.mp hrow
      exact (length_ecfpRow e hwf r n u a).le
    apply rows_count_runEncoder
    · intro s hs hsome
      rw [padRow_eq_self _ _
        (by rw [length_ecfpRow e hwf r n u s]; exact hmax)]
      exact rowHasNull_ecfpRow_some e r n u s hsome
    · intro s hs hnone
      have ho := eq_none_of_isSome_false _ hnone
      rw [ecfpRow_none e r n u s ho]
      exact rowHasNull_padRow_replicate_null _ n hn
  have hmaccs : (runEncoder e (maccsRow e) l).table.rows.length
      = (l.filter (fun s => (e.molFromSmiles s).isSome)).length := by
    have hmax : maxRowLen (l.map (maccsRow e)) ≤ 167 := by
      apply maxRowLen_le
      intro row hrow
      obtain ⟨a, ha, rfl⟩ := List.mem_map.mp hrow
      exact (length_maccsRow e hwf a).le
    apply rows_count_runEncoder
    · intro s hs hsome
      rw [padRow_eq_self _ _
        (by rw [length_maccsRow e hwf s]; exact hmax)]
      exact rowHasNull_maccsRow_some e s hsome
    · intro s hs hnone
      have ho := eq_none_of_isSome_false _ hnone
      rw [maccsRow_none e s ho]
      exact rowHasNull_padRow_replicate_null _ 167 (by omega)
  have hsecfp : n ≤ 2048 →
      (runEncoder e (secfpRow e n r n) l).table.rows.length
        = (l.filter (fun s => (e.molFromSmiles s).isSome)).length := by
    intro h2048
    have hmax : maxRowLen (l.map (secfpRow e n r n)) ≤ 2048 := by
      apply maxRowLen_le
      intro row hrow
      obtain ⟨a, ha, rfl⟩ := List.mem_map.mp hrow
      exact secfpRow_length_le e hwf n r n h2048 a
    apply rows_count_runEncoder
    · intro s hs hsome
      rw [padRow_eq_self _ _
        (by rw [length_secfpRow_some e hwf n r n s hsome]; exact hmax)]
      exact rowHasNull_secfpRow_some e n r n s hsome
    · intro s hs hnone
      have ho := eq_none_of_isSome_false _ hnone
      rw [secfpRow_none e n r n s ho]
      exact rowHasNull_padRow_replicate_null _ n hn
  rw [get_ecfp_eq_run, get_ecfc_eq_run, get_maccs_eq_run, get_secfp_eq_run]
  exact ⟨hecfp, hecfp, hmaccs, hsecfp⟩

/-- C10, witness: the amended statement instantiated at the toy engine with
a duplicated valid input and an unparsable one. -/
theorem C10_witness :
    (get_ecfp toyEngine ["C", "C", "XXXX"] 2 4 false).table.rows.length
      = (List.filter (fun s => (toyEngine.molFromSmiles s).isSome)
          ["C", "C", "XXXX"]).length ∧
    (get_ecfc toyEngine ["C", "C", "XXXX"] 2 4 false).table.rows.length
      = (List.filter (fun s => (toyEngine.molFromSmiles s).isSome)
          ["C", "C", "XXXX"]).length ∧
    (get_maccs toyEngine ["C", "C", "XXXX"]).table.rows.length
      = (List.filter (fun s => (toyEngine.molFromSmiles s).isSome)
          ["C", "C", "XXXX"]).length ∧
    (4 ≤ 2048 →
      (get_secfp toyEngine ["C", "C", "XXXX"] 2 4).table.rows.length
        = (List.filter (fun s => (toyEngine.molFromSmiles s).isSome)
            ["C", "C", "XXXX"]).length) :=
  C10_count_amended toyEngine toyEngine_wf ["C", "C", "XXXX"] 2 4 false
    (by decide)

end RedPred
